import Mathlib

/-
Verification of the bootstrap bag generation subsystem
(src/shared/ebm_native/InnerBag.cpp) against its specification.

The C++ source is shallowly embedded: floating-point values are modelled
as an extended-rational type `EFloat` (NaN, +inf, -inf, or an exact
rational), the deterministic RNG collaborator as a stream of naturals,
and the allocator as an oracle of allocation outcomes together with a
counter of live heap objects, so that leak/rollback properties can be
stated as conservation of the live count.
-/

set_option autoImplicit false

namespace Interpret

/-- Model of the floating-point values (FloatFast / FloatBig) used by the
bag subsystem: NaN, the two infinities, or an exact rational value. -/
inductive EFloat where
  | nan
  | inf
  | neginf
  | val (q : ℚ)
deriving DecidableEq, Repr

namespace EFloat

/-- IEEE-style addition on the float model: NaN propagates, opposite
infinities give NaN, finite addition is exact. -/
def add : EFloat → EFloat → EFloat
  | nan, _ => nan
  | _, nan => nan
  | inf, neginf => nan
  | neginf, inf => nan
  | inf, _ => inf
  | _, inf => inf
  | neginf, _ => neginf
  | _, neginf => neginf
  | val p, val q => val (p + q)

/-- IEEE-style multiplication on the float model: NaN propagates,
infinity times zero gives NaN, finite multiplication is exact. -/
def mul : EFloat → EFloat → EFloat
  | nan, _ => nan
  | _, nan => nan
  | inf, inf => inf
  | inf, neginf => neginf
  | neginf, inf => neginf
  | neginf, neginf => inf
  | inf, val q => if q = 0 then nan else if 0 < q then inf else neginf
  | val q, inf => if q = 0 then nan else if 0 < q then inf else neginf
  | neginf, val q => if q = 0 then nan else if 0 < q then neginf else inf
  | val q, neginf => if q = 0 then nan else if 0 < q then neginf else inf
  | val p, val q => val (p * q)

/-- Model of std::isnan. -/
def isnanE : EFloat → Bool
  | nan => true
  | _ => false

/-- Model of std::isinf. -/
def isinfE : EFloat → Bool
  | inf => true
  | neginf => true
  | _ => false

/-- Model of the comparison `total <= 0` (false on NaN, as in IEEE). -/
def leZero : EFloat → Bool
  | nan => false
  | inf => false
  | neginf => true
  | val q => decide (q ≤ 0)

end EFloat

/-- The aggregate-weight validity test from the source:
`std::isnan(total) || std::isinf(total) || total <= 0`. -/
def invalidTotal (t : EFloat) : Bool :=
  t.isnanE || t.isinfE || t.leZero

/-- Modelled from the spec: the safe-summation collaborator
`AddPositiveFloatsSafeBig` (declared in ebm_internal.hpp, implementation
not part of the shown source). Per the spec it returns a high-precision
sum that does not silently overflow or lose correctness to cancellation,
and returns a non-finite result when an input is non-finite. In the
exact-rational model the sum of finite values is always finitely
representable, so the model is the exact left fold of IEEE-style
addition starting from zero. -/
def AddPositiveFloatsSafeBig (cValues : Nat) (aValues : List EFloat) : EFloat :=
  (aValues.take cValues).foldl EFloat.add (EFloat.val 0)

/-- Modelled from the spec: the deterministic RNG collaborator
(RandomDeterministic.hpp is not part of the shown source). Its state is
a stream of naturals; drawing consumes the head. Identical starting
state plus identical call sequence yields an identical output sequence,
as the spec's determinism contract requires. -/
structure RandomDeterministic where
  stream : Nat → Nat

/-- Modelled from the spec: `NextFast(n)` returns a uniformly distributed
integer in `[0, n)` and advances the state; the model reduces the stream
head modulo `n`. -/
def NextFast (r : RandomDeterministic) (n : Nat) : Nat × RandomDeterministic :=
  (r.stream 0 % n, ⟨fun i => r.stream (i + 1)⟩)

/-- The RNG state after `k` draws: the stream shifted by `k`. -/
def advance (k : Nat) (r : RandomDeterministic) : RandomDeterministic :=
  ⟨fun i => r.stream (i + k)⟩

/-- Model of the heap: an oracle of outcomes for successive allocations
(an empty oracle means every allocation succeeds) and a count of live
heap objects, used to state rollback/leak-freedom properties. -/
structure Mem where
  allocOutcomes : List Bool
  live : Nat
deriving DecidableEq, Repr

/-- Model of EbmMalloc: consults the allocation oracle; on success the
live-object count rises by one. -/
def EbmMalloc (m : Mem) : Bool × Mem :=
  match m.allocOutcomes with
  | [] => (true, ⟨[], m.live + 1⟩)
  | b :: rest => (b, ⟨rest, if b then m.live + 1 else m.live⟩)

/-- Model of free on a single heap object. -/
def freeObj (m : Mem) : Mem :=
  ⟨m.allocOutcomes, m.live - 1⟩

/-- One bag as returned to the caller: the two parallel arrays and the
aggregate weight (InnerBag's m_aCountOccurrences, m_aWeights,
m_weightTotal). -/
structure InnerBag where
  m_aCountOccurrences : List Nat
  m_aWeights : List EFloat
  m_weightTotal : EFloat
deriving DecidableEq, Repr

/-- Model of InnerBag::Free on a fully constructed bag: frees the
occurrence array, the weight array and the struct itself. -/
def freeFullBag (m : Mem) : Mem :=
  freeObj (freeObj (freeObj m))

/-- The increment `++aCountOccurrences[i]` on the occurrence array. -/
def incAt : List Nat → Nat → List Nat
  | [], _ => []
  | c :: cs, 0 => (c + 1) :: cs
  | c :: cs, k + 1 => c :: incAt cs k

/-- The bootstrap sampling loop of GenerateSingleInnerBag: `k` remaining
iterations, each drawing an index in `[0, cSamples)` via NextFast and
incrementing the occurrence array there. -/
def sampleLoop (cSamples : Nat) : Nat → RandomDeterministic → List Nat →
    List Nat × RandomDeterministic
  | 0, r, counts => (counts, r)
  | k + 1, r, counts =>
    let draw := NextFast r cSamples
    sampleLoop cSamples k draw.2 (incAt counts draw.1)

/-- The occurrence counts and advanced RNG produced by the sampling loop
starting from the zeroed (memset) array. -/
def bootstrapCounts (r : RandomDeterministic) (cSamples : Nat) :
    List Nat × RandomDeterministic :=
  sampleLoop cSamples cSamples r (List.replicate cSamples 0)

/-- The common allocation prologue of both factories: allocate the
InnerBag struct, the occurrence array and the weight array in that
order; on any failure free exactly what was already acquired (matching
InnerBag::Free on a partially initialized bag) and report failure. -/
def allocBagArrays (m : Mem) : Bool × Mem :=
  let aRet := EbmMalloc m
  if !aRet.1 then (false, aRet.2)
  else
    let aCounts := EbmMalloc aRet.2
    if !aCounts.1 then (false, freeObj aCounts.2)
    else
      let aWeights := EbmMalloc aCounts.2
      if !aWeights.1 then (false, freeObj (freeObj aWeights.2))
      else (true, aWeights.2)

/-- Model of InnerBag::GenerateSingleInnerBag: allocate, run the
bootstrap sampling loop (writing the advanced RNG back before any
weight validation), then fill weights. Without external weights
`weight[i] = occurrenceCount[i]` and `total = cSamples` exactly; with
external weights `weight[i] = occurrenceCount[i] * aWeights[i]`, the
total is the safe sum, and a NaN/infinite/non-positive total frees
everything and fails. -/
def GenerateSingleInnerBag (pRng : RandomDeterministic) (cSamples : Nat)
    (aWeights : Option (List EFloat)) (m : Mem) :
    Option InnerBag × RandomDeterministic × Mem :=
  let alloc := allocBagArrays m
  if !alloc.1 then (none, pRng, alloc.2)
  else
    let sampled := bootstrapCounts pRng cSamples
    let aCountOccurrences := sampled.1
    let rngOut := sampled.2
    match aWeights with
    | none =>
      let aWeightsInternal := aCountOccurrences.map (fun c => EFloat.val (c : ℚ))
      (some ⟨aCountOccurrences, aWeightsInternal, EFloat.val (cSamples : ℚ)⟩,
        rngOut, alloc.2)
    | some ws =>
      let aWeightsInternal :=
        (aCountOccurrences.zip ws).map (fun p => EFloat.mul (EFloat.val (p.1 : ℚ)) p.2)
      let total := AddPositiveFloatsSafeBig cSamples aWeightsInternal
      if invalidTotal total then (none, rngOut, freeFullBag alloc.2)
      else (some ⟨aCountOccurrences, aWeightsInternal, total⟩, rngOut, alloc.2)

/-- Model of InnerBag::GenerateFlatInnerBag: allocate, then set every
occurrence count to 1. Without external weights every weight is 1 and
`total = cSamples` exactly; with external weights the total is the safe
sum of the external weights (validated as in the bootstrap factory) and
the weights are copied verbatim (memcpy). -/
def GenerateFlatInnerBag (cSamples : Nat) (aWeights : Option (List EFloat))
    (m : Mem) : Option InnerBag × Mem :=
  let alloc := allocBagArrays m
  if !alloc.1 then (none, alloc.2)
  else
    match aWeights with
    | none =>
      (some ⟨List.replicate cSamples 1, List.replicate cSamples (EFloat.val 1),
        EFloat.val (cSamples : ℚ)⟩, alloc.2)
    | some ws =>
      let total := AddPositiveFloatsSafeBig cSamples ws
      if invalidTotal total then (none, freeFullBag alloc.2)
      else (some ⟨List.replicate cSamples 1, ws.take cSamples, total⟩, alloc.2)

/-- Model of InnerBag::FreeInnerBags: a null slot sequence is a no-op;
otherwise scan `max(cInnerBags, 1)` slots (the "0 means 1" sentinel),
free the bag in each non-null slot, then free the slot sequence itself. -/
def FreeInnerBags (cInnerBags : Nat) (apInnerBags : Option (List (Option InnerBag)))
    (m : Mem) : Mem :=
  match apInnerBags with
  | none => m
  | some slots =>
    let cInnerBagsAfterZero := if cInnerBags = 0 then 1 else cInnerBags
    let scanned := (List.range cInnerBagsAfterZero).foldl
      (fun acc i =>
        match slots.getD i none with
        | none => acc
        | some _ => freeFullBag acc) m
    freeObj scanned

/-- Number of populated slots among the `max(cInnerBags, 1)` slots that
FreeInnerBags scans. -/
def scannedPopulated (cInnerBags : Nat) (slots : List (Option InnerBag)) : Nat :=
  ((List.range (if cInnerBags = 0 then 1 else cInnerBags)).filter
    (fun i => (slots.getD i none).isSome)).length

/-- The per-bag construction loop of InnerBag::GenerateInnerBags:
`remaining` bags still to construct, `iInnerBag` the next slot index.
On the first per-bag failure every bag already placed plus the slot
sequence is released via FreeInnerBags and the call fails. -/
def generateLoop (cSamples : Nat) (aWeights : Option (List EFloat))
    (cInnerBags : Nat) :
    Nat → RandomDeterministic → List (Option InnerBag) → Nat → Mem →
    Option (List (Option InnerBag)) × RandomDeterministic × Mem
  | 0, rng, slots, _, m => (some slots, rng, m)
  | remaining + 1, rng, slots, iInnerBag, m =>
    let step := GenerateSingleInnerBag rng cSamples aWeights m
    match step.1 with
    | none => (none, step.2.1, FreeInnerBags cInnerBags (some slots) step.2.2)
    | some bag =>
      generateLoop cSamples aWeights cInnerBags remaining step.2.1
        (slots.set iInnerBag (some bag)) (iInnerBag + 1) step.2.2

/-- Model of InnerBag::GenerateInnerBags: allocate a zeroed slot sequence
of length `max(cInnerBags, 1)`; for the sentinel `cInnerBags = 0`
construct one flat bag into slot 0 (releasing the slot sequence on
failure), otherwise construct `cInnerBags` bootstrap bags sequentially
with all-or-nothing rollback. -/
def GenerateInnerBags (pRng : RandomDeterministic) (cSamples : Nat)
    (aWeights : Option (List EFloat)) (cInnerBags : Nat) (m : Mem) :
    Option (List (Option InnerBag)) × RandomDeterministic × Mem :=
  let cInnerBagsAfterZero := if cInnerBags = 0 then 1 else cInnerBags
  let aSeq := EbmMalloc m
  if !aSeq.1 then (none, pRng, aSeq.2)
  else
    let slots : List (Option InnerBag) := List.replicate cInnerBagsAfterZero none
    if cInnerBags = 0 then
      let flat := GenerateFlatInnerBag cSamples aWeights aSeq.2
      match flat.1 with
      | none => (none, pRng, freeObj flat.2)
      | some bag => (some (slots.set 0 (some bag)), pRng, flat.2)
    else
      generateLoop cSamples aWeights cInnerBags cInnerBags pRng slots 0 aSeq.2

/-- A concrete RNG state whose stream is constantly 0, used to evaluate
the model on explicit inputs. -/
def cRng0 : RandomDeterministic := ⟨fun _ => 0⟩

/-- A concrete RNG state whose stream is constantly 1, used to evaluate
the model on explicit inputs. -/
def cRng1 : RandomDeterministic := ⟨fun _ => 1⟩

/-! Helper lemmas about the RNG stream model. -/

theorem advance_advance (a b : Nat) (r : RandomDeterministic) :
    advance a (advance b r) = advance (a + b) r := by
  unfold advance
  exact congrArg RandomDeterministic.mk
    (funext fun i => congrArg r.stream (Nat.add_assoc i a b))

theorem sampleLoop_rng (n : Nat) :
    ∀ (k : Nat) (r : RandomDeterministic) (counts : List Nat),
      (sampleLoop n k r counts).2 = advance k r := by
  intro k
  induction k with
  | zero => intro r counts; rfl
  | succ k ih =>
    intro r counts
    show (sampleLoop n k (NextFast r n).2 (incAt counts (NextFast r n).1)).2 =
      advance (k + 1) r
    rw [ih]
    show advance k (advance 1 r) = advance (k + 1) r
    rw [advance_advance]

theorem bootstrapCounts_rng (r : RandomDeterministic) (n : Nat) :
    (bootstrapCounts r n).2 = advance n r :=
  sampleLoop_rng n n r (List.replicate n 0)

/-! Helper lemmas about the occurrence-count array. -/

theorem incAt_length : ∀ (l : List Nat) (i : Nat), (incAt l i).length = l.length := by
  intro l
  induction l with
  | nil => intro i; rfl
  | cons c cs ih =>
    intro i
    cases i with
    | zero => rfl
    | succ j => simpa [incAt] using ih j

theorem incAt_sum : ∀ (l : List Nat) (i : Nat), i < l.length →
    (incAt l i).sum = l.sum + 1 := by
  intro l
  induction l with
  | nil => intro i h; exact absurd h (Nat.not_lt_zero i)
  | cons c cs ih =>
    intro i h
    cases i with
    | zero => simp [incAt]; omega
    | succ j =>
      have hj : j < cs.length := by simpa using h
      simp [incAt, ih j hj]
      omega

theorem sampleLoop_length (n : Nat) :
    ∀ (k : Nat) (r : RandomDeterministic) (counts : List Nat),
      (sampleLoop n k r counts).1.length = counts.length := by
  intro k
  induction k with
  | zero => intro r counts; rfl
  | succ k ih =>
    intro r counts
    show (sampleLoop n k (NextFast r n).2 (incAt counts (NextFast r n).1)).1.length =
      counts.length
    rw [ih, incAt_length]

theorem sampleLoop_sum (n : Nat) (hn : 0 < n) :
    ∀ (k : Nat) (r : RandomDeterministic) (counts : List Nat), counts.length = n →
      (sampleLoop n k r counts).1.sum = counts.sum + k := by
  intro k
  induction k with
  | zero => intro r counts _; rfl
  | succ k ih =>
    intro r counts hlen
    have hdraw : (NextFast r n).1 < counts.length := by
      rw [hlen]; exact Nat.mod_lt _ hn
    show (sampleLoop n k (NextFast r n).2 (incAt counts (NextFast r n).1)).1.sum =
      counts.sum + (k + 1)
    rw [ih _ _ (by rw [incAt_length, hlen]), incAt_sum _ _ hdraw]
    omega

theorem bootstrapCounts_length (r : RandomDeterministic) (n : Nat) :
    (bootstrapCounts r n).1.length = n := by
  simpa [bootstrapCounts] using sampleLoop_length n n r (List.replicate n 0)

theorem bootstrapCounts_sum (r : RandomDeterministic) (n : Nat) (hn : 0 < n) :
    (bootstrapCounts r n).1.sum = n := by
  have h := sampleLoop_sum n hn n r (List.replicate n 0) (by simp)
  simpa [bootstrapCounts] using h

/-! Helper lemmas about the memory model. -/

theorem EbmMalloc_live (m : Mem) :
    ((EbmMalloc m).2).live = if (EbmMalloc m).1 then m.live + 1 else m.live := by
  rcases m with ⟨outs, live⟩
  cases outs with
  | nil => rfl
  | cons b rest => cases b <;> rfl

theorem EbmMalloc_empty (live : Nat) :
    EbmMalloc ⟨[], live⟩ = (true, ⟨[], live + 1⟩) := rfl

theorem allocBagArrays_live (m : Mem) :
    ((allocBagArrays m).2).live =
      if (allocBagArrays m).1 then m.live + 3 else m.live := by
  obtain ⟨outs, live⟩ := m
  rcases outs with _ | ⟨_ | _, _ | ⟨_ | _, _ | ⟨_ | _, outs⟩⟩⟩ <;>
    simp [allocBagArrays, EbmMalloc, freeObj]

theorem allocBagArrays_empty (live : Nat) :
    allocBagArrays ⟨[], live⟩ = (true, ⟨[], live + 3⟩) := rfl

theorem freeFullBag_live (m : Mem) : (freeFullBag m).live = m.live - 3 := by
  simp [freeFullBag, freeObj]
  omega

theorem GenerateSingleInnerBag_live (rng : RandomDeterministic) (n : Nat)
    (w : Option (List EFloat)) (m : Mem) :
    ((GenerateSingleInnerBag rng n w m).2.2).live =
      if (GenerateSingleInnerBag rng n w m).1.isSome then m.live + 3 else m.live := by
  obtain ⟨outs, live⟩ := m
  rcases outs with _ | ⟨_ | _, _ | ⟨_ | _, _ | ⟨_ | _, outs⟩⟩⟩ <;> cases w <;>
    simp [GenerateSingleInnerBag, allocBagArrays, EbmMalloc, freeObj, freeFullBag] <;>
      first
      | omega
      | (split <;> simp)

theorem GenerateFlatInnerBag_live (n : Nat) (w : Option (List EFloat)) (m : Mem) :
    ((GenerateFlatInnerBag n w m).2).live =
      if (GenerateFlatInnerBag n w m).1.isSome then m.live + 3 else m.live := by
  obtain ⟨outs, live⟩ := m
  rcases outs with _ | ⟨_ | _, _ | ⟨_ | _, _ | ⟨_ | _, outs⟩⟩⟩ <;> cases w <;>
    simp [GenerateFlatInnerBag, allocBagArrays, EbmMalloc, freeObj, freeFullBag] <;>
      first
      | omega
      | (split <;> simp)

/-! Helper lemmas about FreeInnerBags. -/

theorem freeScan_eq (slots : List (Option InnerBag)) :
    ∀ (l : List Nat) (m : Mem),
      (l.foldl (fun acc i =>
        match slots.getD i none with
        | none => acc
        | some _ => freeFullBag acc) m) =
      ⟨m.allocOutcomes, m.live - 3 * (l.filter (fun i => (slots.getD i none).isSome)).length⟩ := by
  intro l
  induction l with
  | nil => intro m; rfl
  | cons i rest ih =>
    intro m
    cases hgd : slots.getD i none with
    | none =>
      simp only [List.foldl_cons, hgd, List.filter_cons, Option.isSome_none,
        Bool.false_eq_true, if_false]
      exact ih m
    | some bag =>
      simp only [List.foldl_cons, hgd, List.filter_cons, Option.isSome_some, if_true]
      rw [ih]
      simp [freeFullBag, freeObj, List.length_cons]
      omega

theorem FreeInnerBags_none (c : Nat) (m : Mem) : FreeInnerBags c none m = m := rfl

theorem FreeInnerBags_some (c : Nat) (slots : List (Option InnerBag)) (m : Mem) :
    FreeInnerBags c (some slots) m =
      ⟨m.allocOutcomes, m.live - 3 * scannedPopulated c slots - 1⟩ := by
  simp only [FreeInnerBags, scannedPopulated]
  rw [freeScan_eq]
  rfl

/-! Helper lemmas about the slot-sequence shape maintained by the
orchestrator loop: the first `pop.length` slots populated, the rest null. -/

theorem getD_replicate_self {α : Type} (a : α) :
    ∀ (r j : Nat), (List.replicate r a).getD j a = a := by
  intro r
  induction r with
  | zero => intro j; rfl
  | succ r ih =>
    intro j
    cases j with
    | zero => rfl
    | succ j => simpa [List.replicate_succ] using ih j

theorem shape_getD_isSome (pop : List InnerBag) (r i : Nat) :
    ((pop.map some ++ List.replicate r none).getD i none).isSome =
      decide (i < pop.length) := by
  by_cases h : i < pop.length
  · have hlt : i < (pop.map some).length := by simpa using h
    rw [List.getD_append _ _ _ _ hlt]
    rw [List.getD_eq_getElem _ _ hlt]
    simp [h]
  · have hge : (pop.map some).length ≤ i := by simpa using Nat.le_of_not_lt h
    rw [List.getD_append_right _ _ _ _ hge]
    rw [getD_replicate_self]
    simp [h]

theorem range_filter_lt_length (k : Nat) :
    ∀ (n : Nat), ((List.range n).filter (fun i => decide (i < k))).length = min k n := by
  intro n
  induction n with
  | zero => simp
  | succ n ih =>
    rw [List.range_succ, List.filter_append, List.length_append, ih]
    by_cases h : n < k
    · simp [h]
      omega
    · simp [h]
      omega

theorem scannedPopulated_shape (N r : Nat) (pop : List InnerBag) (hN : 0 < N)
    (hlen : pop.length + r = N) :
    scannedPopulated N (pop.map some ++ List.replicate r none) = pop.length := by
  unfold scannedPopulated
  rw [if_neg (Nat.pos_iff_ne_zero.mp hN)]
  rw [List.filter_congr (fun i _ => shape_getD_isSome pop r i)]
  rw [range_filter_lt_length]
  omega

theorem set_shape (bag : InnerBag) :
    ∀ (pop : List InnerBag) (r : Nat),
      (pop.map some ++ List.replicate (r + 1) none).set pop.length (some bag) =
        (pop ++ [bag]).map some ++ List.replicate r none := by
  intro pop
  induction pop with
  | nil => intro r; simp [List.replicate_succ]
  | cons a pop ih =>
    intro r
    simpa [List.set] using ih r

/-! Helper lemmas about the safe-summation model on finite nonnegative
inputs. -/

theorem foldl_add_val_nonneg :
    ∀ (ws : List EFloat) (a : ℚ),
      (∀ w ∈ ws, ∃ q : ℚ, w = EFloat.val q ∧ 0 ≤ q) →
      ∃ s : ℚ, ws.foldl EFloat.add (EFloat.val a) = EFloat.val s ∧ a ≤ s := by
  intro ws
  induction ws with
  | nil => intro a _; exact ⟨a, rfl, le_refl a⟩
  | cons w ws ih =>
    intro a hall
    obtain ⟨q, hwq, hq⟩ := hall w (List.mem_cons_self w ws)
    obtain ⟨s, heq, hle⟩ := ih (a + q)
      (fun x hx => hall x (List.mem_cons_of_mem w hx))
    refine ⟨s, ?_, by linarith⟩
    rw [List.foldl_cons, hwq]
    simpa [EFloat.add] using heq

theorem foldl_add_val_pos (ws : List EFloat)
    (hall : ∀ w ∈ ws, ∃ q : ℚ, w = EFloat.val q ∧ 0 ≤ q)
    (hpos : ∃ w ∈ ws, ∃ p : ℚ, w = EFloat.val p ∧ 0 < p) :
    ∃ s : ℚ, ws.foldl EFloat.add (EFloat.val 0) = EFloat.val s ∧ 0 < s := by
  obtain ⟨w, hw, p, hwp, hp⟩ := hpos
  obtain ⟨l1, l2, rfl⟩ := List.append_of_mem hw
  subst hwp
  rw [List.foldl_append, List.foldl_cons]
  obtain ⟨s1, e1, h1⟩ := foldl_add_val_nonneg l1 0
    (fun x hx => hall x (List.mem_append_left _ hx))
  rw [e1]
  have : EFloat.add (EFloat.val s1) (EFloat.val p) = EFloat.val (s1 + p) := rfl
  rw [this]
  obtain ⟨s, e2, h2⟩ := foldl_add_val_nonneg l2 (s1 + p)
    (fun x hx => hall x (List.mem_append_right _ (List.mem_cons_of_mem _ hx)))
  exact ⟨s, e2, by linarith⟩

theorem invalidTotal_val_pos (s : ℚ) (hs : 0 < s) :
    invalidTotal (EFloat.val s) = false := by
  simp [invalidTotal, EFloat.isnanE, EFloat.isinfE, EFloat.leZero, not_le, hs]

theorem invalidTotal_val_natCast (n : Nat) (hn : 1 ≤ n) :
    invalidTotal (EFloat.val (n : ℚ)) = false :=
  invalidTotal_val_pos _ (by exact_mod_cast hn)

/-! Characterizations of the bags returned by the two factories. -/

theorem gsib_none_shape (rng : RandomDeterministic) (n : Nat) (m : Mem) (bag : InnerBag)
    (h : (GenerateSingleInnerBag rng n none m).1 = some bag) :
    bag = ⟨(bootstrapCounts rng n).1,
      (bootstrapCounts rng n).1.map (fun c => EFloat.val (c : ℚ)),
      EFloat.val (n : ℚ)⟩ := by
  simp only [GenerateSingleInnerBag] at h
  split at h
  · simp at h
  · simp at h
    exact h.symm

theorem gsib_some_shape (rng : RandomDeterministic) (n : Nat) (ws : List EFloat)
    (m : Mem) (bag : InnerBag)
    (h : (GenerateSingleInnerBag rng n (some ws) m).1 = some bag) :
    bag = ⟨(bootstrapCounts rng n).1,
      ((bootstrapCounts rng n).1.zip ws).map
        (fun p => EFloat.mul (EFloat.val (p.1 : ℚ)) p.2),
      AddPositiveFloatsSafeBig n
        (((bootstrapCounts rng n).1.zip ws).map
          (fun p => EFloat.mul (EFloat.val (p.1 : ℚ)) p.2))⟩ ∧
    invalidTotal (AddPositiveFloatsSafeBig n
      (((bootstrapCounts rng n).1.zip ws).map
        (fun p => EFloat.mul (EFloat.val (p.1 : ℚ)) p.2))) = false := by
  simp only [GenerateSingleInnerBag] at h
  split at h
  · simp at h
  · split at h
    · simp at h
    · simp at h
      rename_i hinv
      exact ⟨h.symm, by simpa using hinv⟩

theorem flat_none_shape (n : Nat) (m : Mem) (bag : InnerBag)
    (h : (GenerateFlatInnerBag n none m).1 = some bag) :
    bag = ⟨List.replicate n 1, List.replicate n (EFloat.val 1), EFloat.val (n : ℚ)⟩ := by
  simp only [GenerateFlatInnerBag] at h
  split at h
  · simp at h
  · simp at h
    exact h.symm

theorem flat_some_shape (n : Nat) (ws : List EFloat) (m : Mem) (bag : InnerBag)
    (h : (GenerateFlatInnerBag n (some ws) m).1 = some bag) :
    bag = ⟨List.replicate n 1, ws.take n, AddPositiveFloatsSafeBig n ws⟩ ∧
    invalidTotal (AddPositiveFloatsSafeBig n ws) = false := by
  simp only [GenerateFlatInnerBag] at h
  split at h
  · simp at h
  · split at h
    · simp at h
    · simp at h
      rename_i hinv
      exact ⟨h.symm, by simpa using hinv⟩

theorem gsib_counts (rng : RandomDeterministic) (n : Nat) (w : Option (List EFloat))
    (m : Mem) (bag : InnerBag)
    (h : (GenerateSingleInnerBag rng n w m).1 = some bag) :
    bag.m_aCountOccurrences = (bootstrapCounts rng n).1 := by
  cases w with
  | none => rw [gsib_none_shape rng n m bag h]
  | some ws => rw [(gsib_some_shape rng n ws m bag h).1]

/-! The claim theorems. -/

/-- C2: for every sampleCount >= 1, every RNG state and no external
weights, a successful weighted-bootstrap construction returns a bag whose
occurrence counts sum to sampleCount, whose weight array equals the
occurrence-count array, and whose weightTotal equals sampleCount exactly. -/
theorem bootstrap_noWeights_invariants (pRng : RandomDeterministic) (cSamples : Nat)
    (m : Mem) (bag : InnerBag) (hn : 1 ≤ cSamples)
    (h : (GenerateSingleInnerBag pRng cSamples none m).1 = some bag) :
    bag.m_aCountOccurrences.sum = cSamples ∧
    bag.m_aWeights = bag.m_aCountOccurrences.map (fun c => EFloat.val (c : ℚ)) ∧
    bag.m_weightTotal = EFloat.val (cSamples : ℚ) := by
  rw [gsib_none_shape pRng cSamples m bag h]
  exact ⟨bootstrapCounts_sum pRng cSamples hn, rfl, rfl⟩

theorem bootstrap_noWeights_invariants_witness :
    1 ≤ 3 ∧
    ((⟨[3, 0, 0], [EFloat.val 3, EFloat.val 0, EFloat.val 0], EFloat.val 3⟩ :
        InnerBag).m_aCountOccurrences.sum = 3 ∧
      (⟨[3, 0, 0], [EFloat.val 3, EFloat.val 0, EFloat.val 0], EFloat.val 3⟩ :
        InnerBag).m_aWeights =
        (⟨[3, 0, 0], [EFloat.val 3, EFloat.val 0, EFloat.val 0], EFloat.val 3⟩ :
          InnerBag).m_aCountOccurrences.map (fun c => EFloat.val (c : ℚ)) ∧
      (⟨[3, 0, 0], [EFloat.val 3, EFloat.val 0, EFloat.val 0], EFloat.val 3⟩ :
        InnerBag).m_weightTotal = EFloat.val ((3 : Nat) : ℚ)) :=
  ⟨by norm_num,
    bootstrap_noWeights_invariants cRng0 3 ⟨[], 0⟩ _ (by norm_num) (by decide)⟩

/-- C6: for every sampleCount >= 1, a successful flat construction returns
a bag with every occurrence count 1; with no external weights every
weight is 1 and weightTotal is sampleCount, and with external weights the
weight array is the external weights copied verbatim. -/
theorem flat_bag_contents (cSamples : Nat) (ws : List EFloat) (m : Mem)
    (hn : 1 ≤ cSamples) (hlen : ws.length = cSamples) :
    (∀ bag, (GenerateFlatInnerBag cSamples none m).1 = some bag →
      bag.m_aCountOccurrences = List.replicate cSamples 1 ∧
      bag.m_aWeights = List.replicate cSamples (EFloat.val 1) ∧
      bag.m_weightTotal = EFloat.val (cSamples : ℚ)) ∧
    (∀ bag, (GenerateFlatInnerBag cSamples (some ws) m).1 = some bag →
      bag.m_aCountOccurrences = List.replicate cSamples 1 ∧
      bag.m_aWeights = ws) := by
  constructor
  · intro bag h
    rw [flat_none_shape cSamples m bag h]
    exact ⟨rfl, rfl, rfl⟩
  · intro bag h
    rw [(flat_some_shape cSamples ws m bag h).1]
    refine ⟨rfl, ?_⟩
    show ws.take cSamples = ws
    rw [← hlen]
    exact List.take_length ws

theorem flat_bag_contents_witness :
    1 ≤ 1 ∧ ([EFloat.val 4] : List EFloat).length = 1 ∧
    ((⟨[1], [EFloat.val 1], EFloat.val 1⟩ :
        InnerBag).m_aCountOccurrences = List.replicate 1 1 ∧
      (⟨[1], [EFloat.val 1], EFloat.val 1⟩ :
        InnerBag).m_aWeights = List.replicate 1 (EFloat.val 1) ∧
      (⟨[1], [EFloat.val 1], EFloat.val 1⟩ :
        InnerBag).m_weightTotal = EFloat.val ((1 : Nat) : ℚ)) ∧
    ((⟨[1], [EFloat.val 4], EFloat.val 4⟩ :
        InnerBag).m_aCountOccurrences = List.replicate 1 1 ∧
      (⟨[1], [EFloat.val 4], EFloat.val 4⟩ :
        InnerBag).m_aWeights = [EFloat.val 4]) :=
  ⟨by norm_num, by norm_num,
    (flat_bag_contents 1 [EFloat.val 4] ⟨[], 0⟩ (by norm_num)
      (by norm_num)).1 _ (by decide),
    (flat_bag_contents 1 [EFloat.val 4] ⟨[], 0⟩ (by norm_num)
      (by norm_num)).2 _
      (by simp [GenerateFlatInnerBag, allocBagArrays, EbmMalloc,
        AddPositiveFloatsSafeBig, invalidTotal, EFloat.isnanE, EFloat.isinfE,
        EFloat.leZero, EFloat.add,
        show ((4 : ℚ) ≤ 0) = False from by norm_num])⟩

/-- C7: two weighted-bootstrap constructions performed with the RNG handle
in the same starting state and the same sampleCount produce identical
occurrenceCount arrays, whatever the weight options and allocator states
of the two runs. -/
theorem bootstrap_two_runs_deterministic (pRng : RandomDeterministic) (cSamples : Nat)
    (w1 w2 : Option (List EFloat)) (m1 m2 : Mem) (b1 b2 : InnerBag)
    (hn : 1 ≤ cSamples)
    (h1 : (GenerateSingleInnerBag pRng cSamples w1 m1).1 = some b1)
    (h2 : (GenerateSingleInnerBag pRng cSamples w2 m2).1 = some b2) :
    b1.m_aCountOccurrences = b2.m_aCountOccurrences := by
  rw [gsib_counts pRng cSamples w1 m1 b1 h1, gsib_counts pRng cSamples w2 m2 b2 h2]

theorem bootstrap_two_runs_deterministic_witness :
    1 ≤ 2 ∧
    (⟨[2, 0], [EFloat.val 2, EFloat.val 0], EFloat.val 2⟩ :
        InnerBag).m_aCountOccurrences =
      (⟨[2, 0], [EFloat.val 2, EFloat.val 0], EFloat.val 2⟩ :
        InnerBag).m_aCountOccurrences :=
  ⟨by norm_num,
    bootstrap_two_runs_deterministic cRng0 2 none none
      ⟨[], 0⟩ ⟨[], 5⟩ _ _ (by norm_num) (by decide) (by decide)⟩

/-- C5: every bag returned by either factory, with or without external
weights, has a weightTotal that is not NaN, not infinite, and strictly
positive (the invalidTotal predicate is false on it). -/
theorem returned_bag_weightTotal_valid (pRng : RandomDeterministic) (cSamples : Nat)
    (aWeights : Option (List EFloat)) (m : Mem) (hn : 1 ≤ cSamples) :
    (∀ bag, (GenerateSingleInnerBag pRng cSamples aWeights m).1 = some bag →
      invalidTotal bag.m_weightTotal = false) ∧
    (∀ bag, (GenerateFlatInnerBag cSamples aWeights m).1 = some bag →
      invalidTotal bag.m_weightTotal = false) := by
  constructor
  · intro bag h
    cases aWeights with
    | none =>
      rw [gsib_none_shape pRng cSamples m bag h]
      exact invalidTotal_val_natCast cSamples hn
    | some ws =>
      obtain ⟨hshape, hvalid⟩ := gsib_some_shape pRng cSamples ws m bag h
      rw [hshape]
      exact hvalid
  · intro bag h
    cases aWeights with
    | none =>
      rw [flat_none_shape cSamples m bag h]
      exact invalidTotal_val_natCast cSamples hn
    | some ws =>
      obtain ⟨hshape, hvalid⟩ := flat_some_shape cSamples ws m bag h
      rw [hshape]
      exact hvalid

theorem returned_bag_weightTotal_valid_witness :
    1 ≤ 1 ∧ invalidTotal (EFloat.val 1) = false :=
  ⟨by norm_num,
    (returned_bag_weightTotal_valid cRng0 1 none ⟨[], 0⟩ (by norm_num)).2
      ⟨[1], [EFloat.val 1], EFloat.val 1⟩ (by decide)⟩

/-- C8: the bulk release is a no-op on an absent slot sequence; on a
present sequence it scans max(requestedBagCount, 1) slots, releases the
three heap objects of each populated slot while skipping null slots,
then releases the slot sequence itself; with requestedBagCount 0 exactly
one slot is scanned. -/
theorem freeInnerBags_contract (cInnerBags : Nat) (slots : List (Option InnerBag))
    (m : Mem) :
    FreeInnerBags cInnerBags none m = m ∧
    FreeInnerBags cInnerBags (some slots) m =
      ⟨m.allocOutcomes, m.live - 3 * scannedPopulated cInnerBags slots - 1⟩ ∧
    scannedPopulated 0 slots = (if (slots.getD 0 none).isSome then 1 else 0) := by
  refine ⟨rfl, FreeInnerBags_some cInnerBags slots m, ?_⟩
  have hr : List.range 1 = [0] := rfl
  unfold scannedPopulated
  rw [if_pos rfl, hr]
  cases hgd : (slots.getD 0 none).isSome with
  | false =>
    simp only [List.filter_cons, List.filter_nil, hgd, Bool.false_eq_true,
      if_false, List.length_nil]
  | true =>
    simp only [List.filter_cons, List.filter_nil, hgd, if_true,
      List.length_cons, List.length_nil]

theorem flat_fst_mem_independent (n : Nat) (w : Option (List EFloat)) (a b : Nat) :
    (GenerateFlatInnerBag n w ⟨[], a⟩).1 = (GenerateFlatInnerBag n w ⟨[], b⟩).1 := by
  cases w with
  | none => rfl
  | some ws =>
    by_cases h : invalidTotal (AddPositiveFloatsSafeBig n ws) = true
    · simp [GenerateFlatInnerBag, allocBagArrays_empty, h]
    · simp only [Bool.not_eq_true] at h
      simp [GenerateFlatInnerBag, allocBagArrays_empty, h]

/-- C1: for every sampleCount >= 1 and every external-weight option,
orchestrated construction with requestedBagCount 0 allocates a slot
sequence of length exactly 1 whose sole slot, on success, holds the same
bag that direct flat construction produces on the same inputs (and it
fails exactly when flat construction fails). -/
theorem construct_zero_is_single_flat (pRng : RandomDeterministic) (cSamples : Nat)
    (aWeights : Option (List EFloat)) (liveA liveB : Nat) (hn : 1 ≤ cSamples) :
    (GenerateInnerBags pRng cSamples aWeights 0 ⟨[], liveA⟩).1 =
      Option.map (fun bag => [some bag])
        (GenerateFlatInnerBag cSamples aWeights ⟨[], liveB⟩).1 := by
  have hind := flat_fst_mem_independent cSamples aWeights (liveA + 1) liveB
  cases hres : (GenerateFlatInnerBag cSamples aWeights ⟨[], liveA + 1⟩).1 with
  | none =>
    rw [← hind, hres]
    simp [GenerateInnerBags, EbmMalloc, hres]
  | some bag =>
    rw [← hind, hres]
    simp [GenerateInnerBags, EbmMalloc, hres, List.set]

theorem construct_zero_is_single_flat_witness :
    1 ≤ 3 ∧
    (GenerateInnerBags cRng0 3 none 0 ⟨[], 0⟩).1 =
      Option.map (fun bag => [some bag]) (GenerateFlatInnerBag 3 none ⟨[], 7⟩).1 :=
  ⟨by norm_num, construct_zero_is_single_flat cRng0 3 none 0 7 (by norm_num)⟩

/-- C4: with external weights supplied and all allocations succeeding,
each factory fails (returns no bag) exactly when the safe-summation
aggregate of the effective weights is NaN, infinite or non-positive, and
on that failure the live-object count is back at its starting value
(every acquired array has been released). -/
theorem factories_fail_iff_invalid_aggregate (pRng : RandomDeterministic)
    (cSamples : Nat) (ws : List EFloat) (liveF liveB : Nat) (hn : 1 ≤ cSamples) :
    ((GenerateFlatInnerBag cSamples (some ws) ⟨[], liveF⟩).1 = none ↔
      invalidTotal (AddPositiveFloatsSafeBig cSamples ws) = true) ∧
    ((GenerateFlatInnerBag cSamples (some ws) ⟨[], liveF⟩).1 = none →
      (GenerateFlatInnerBag cSamples (some ws) ⟨[], liveF⟩).2.live = liveF) ∧
    ((GenerateSingleInnerBag pRng cSamples (some ws) ⟨[], liveB⟩).1 = none ↔
      invalidTotal (AddPositiveFloatsSafeBig cSamples
        (((bootstrapCounts pRng cSamples).1.zip ws).map
          (fun p => EFloat.mul (EFloat.val (p.1 : ℚ)) p.2))) = true) ∧
    ((GenerateSingleInnerBag pRng cSamples (some ws) ⟨[], liveB⟩).1 = none →
      (GenerateSingleInnerBag pRng cSamples (some ws) ⟨[], liveB⟩).2.2.live = liveB) := by
  refine ⟨?_, ?_, ?_, ?_⟩
  · by_cases h : invalidTotal (AddPositiveFloatsSafeBig cSamples ws) = true
    · simp [GenerateFlatInnerBag, allocBagArrays_empty, h]
    · simp only [Bool.not_eq_true] at h
      simp [GenerateFlatInnerBag, allocBagArrays_empty, h]
  · intro hfail
    have hlive := GenerateFlatInnerBag_live cSamples (some ws) ⟨[], liveF⟩
    rw [hfail] at hlive
    simpa using hlive
  · by_cases h : invalidTotal (AddPositiveFloatsSafeBig cSamples
        (((bootstrapCounts pRng cSamples).1.zip ws).map
          (fun p => EFloat.mul (EFloat.val (p.1 : ℚ)) p.2))) = true
    · simp [GenerateSingleInnerBag, allocBagArrays_empty, h]
    · simp only [Bool.not_eq_true] at h
      simp [GenerateSingleInnerBag, allocBagArrays_empty, h]
  · intro hfail
    have hlive := GenerateSingleInnerBag_live pRng cSamples (some ws) ⟨[], liveB⟩
    rw [hfail] at hlive
    simpa using hlive

theorem factories_fail_iff_invalid_aggregate_witness :
    1 ≤ 1 ∧
    (((GenerateFlatInnerBag 1 (some [EFloat.val 0]) ⟨[], 4⟩).1 = none ↔
      invalidTotal (AddPositiveFloatsSafeBig 1 [EFloat.val 0]) = true) ∧
    ((GenerateFlatInnerBag 1 (some [EFloat.val 0]) ⟨[], 4⟩).1 = none →
      (GenerateFlatInnerBag 1 (some [EFloat.val 0]) ⟨[], 4⟩).2.live = 4) ∧
    ((GenerateSingleInnerBag cRng0 1 (some [EFloat.val 0]) ⟨[], 7⟩).1 = none ↔
      invalidTotal (AddPositiveFloatsSafeBig 1
        (((bootstrapCounts cRng0 1).1.zip [EFloat.val 0]).map
          (fun p => EFloat.mul (EFloat.val (p.1 : ℚ)) p.2))) = true) ∧
    ((GenerateSingleInnerBag cRng0 1 (some [EFloat.val 0]) ⟨[], 7⟩).1 = none →
      (GenerateSingleInnerBag cRng0 1 (some [EFloat.val 0]) ⟨[], 7⟩).2.2.live = 7)) :=
  ⟨by norm_num,
    factories_fail_iff_invalid_aggregate cRng0 1 [EFloat.val 0] 4 7 (by norm_num)⟩

/-- C10: in weighted-bootstrap construction (all allocations succeeding),
when the call fails the advanced RNG state has already been written back:
the returned RNG equals the starting RNG advanced by sampleCount draws
even though no bag is returned, while the live-object count is rolled
back to its starting value. -/
theorem rng_advanced_on_invalid_aggregate (pRng : RandomDeterministic)
    (cSamples : Nat) (ws : List EFloat) (live : Nat) (hn : 1 ≤ cSamples)
    (hfail : (GenerateSingleInnerBag pRng cSamples (some ws) ⟨[], live⟩).1 = none) :
    (GenerateSingleInnerBag pRng cSamples (some ws) ⟨[], live⟩).2.1 =
      advance cSamples pRng ∧
    (GenerateSingleInnerBag pRng cSamples (some ws) ⟨[], live⟩).2.2.live = live := by
  by_cases hinv : invalidTotal (AddPositiveFloatsSafeBig cSamples
      (((bootstrapCounts pRng cSamples).1.zip ws).map
        (fun p => EFloat.mul (EFloat.val (p.1 : ℚ)) p.2))) = true
  · constructor
    · simp [GenerateSingleInnerBag, allocBagArrays_empty, hinv, bootstrapCounts_rng]
    · simp [GenerateSingleInnerBag, allocBagArrays_empty, hinv, freeFullBag, freeObj]
  · exfalso
    simp only [Bool.not_eq_true] at hinv
    simp [GenerateSingleInnerBag, allocBagArrays_empty, hinv] at hfail

theorem rng_advanced_on_invalid_aggregate_witness :
    1 ≤ 1 ∧
    ((GenerateSingleInnerBag cRng0 1 (some [EFloat.val 0]) ⟨[], 5⟩).2.1 =
      advance 1 cRng0 ∧
    (GenerateSingleInnerBag cRng0 1 (some [EFloat.val 0]) ⟨[], 5⟩).2.2.live = 5) :=
  ⟨by norm_num,
    rng_advanced_on_invalid_aggregate cRng0 1 [EFloat.val 0] 5 (by norm_num)
      (by
        have hc : (bootstrapCounts cRng0 1).1 = [1] := by decide
        simp [GenerateSingleInnerBag, allocBagArrays_empty, hc,
          AddPositiveFloatsSafeBig, invalidTotal, EFloat.isnanE, EFloat.isinfE,
          EFloat.leZero, EFloat.add, EFloat.mul])⟩

theorem generateLoop_spec (cSamples : Nat) (aWeights : Option (List EFloat)) (N : Nat)
    (hN : 0 < N) :
    ∀ (remaining : Nat) (pop : List InnerBag) (rng : RandomDeterministic) (m : Mem),
      pop.length + remaining = N →
      ((∀ slots, (generateLoop cSamples aWeights N remaining rng
          (pop.map some ++ List.replicate remaining none) pop.length m).1 = some slots →
          slots.length = N ∧ ∀ s ∈ slots, s.isSome = true) ∧
        ((generateLoop cSamples aWeights N remaining rng
            (pop.map some ++ List.replicate remaining none) pop.length m).1 = none →
          (generateLoop cSamples aWeights N remaining rng
            (pop.map some ++ List.replicate remaining none) pop.length m).2.2.live =
            m.live - (3 * pop.length + 1))) := by
  intro remaining
  induction remaining with
  | zero =>
    intro pop rng m hlen
    constructor
    · intro slots hs
      simp only [generateLoop, Option.some.injEq] at hs
      subst hs
      constructor
      · simpa using hlen
      · intro s hs
        simp at hs
        obtain ⟨b, _, rfl⟩ := hs
        rfl
    · intro hnone
      simp [generateLoop] at hnone
  | succ r ih =>
    intro pop rng m hlen
    have hlive := GenerateSingleInnerBag_live rng cSamples aWeights m
    cases hstep : (GenerateSingleInnerBag rng cSamples aWeights m).1 with
    | none =>
      rw [hstep] at hlive
      simp only [Option.isSome_none, Bool.false_eq_true, if_false] at hlive
      constructor
      · intro slots hs
        simp only [generateLoop, hstep] at hs
        cases hs
      · intro _
        simp only [generateLoop, hstep]
        rw [FreeInnerBags_some]
        rw [scannedPopulated_shape N (r + 1) pop hN hlen]
        simp only [hlive]
        omega
    | some bag =>
      rw [hstep] at hlive
      simp only [Option.isSome_some, if_true] at hlive
      have hlen' : (pop ++ [bag]).length + r = N := by
        simp only [List.length_append, List.length_cons, List.length_nil]
        omega
      have hrec := ih (pop ++ [bag])
        (GenerateSingleInnerBag rng cSamples aWeights m).2.1
        (GenerateSingleInnerBag rng cSamples aWeights m).2.2 hlen'
      simp only [List.length_append, List.length_cons, List.length_nil] at hrec
      simp only [generateLoop, hstep, set_shape bag pop r]
      constructor
      · exact hrec.1
      · intro hnone
        rw [hrec.2 hnone, hlive]
        omega

/-- C3: for requestedBagCount N > 0, orchestrated construction either
returns a slot sequence of length N in which every slot holds a bag, or
fails having released every bag already placed and the slot sequence
itself, leaving the live-object count exactly where it started; a
partially populated set is never returned. -/
theorem generateInnerBags_all_or_nothing (pRng : RandomDeterministic)
    (cSamples : Nat) (aWeights : Option (List EFloat)) (N : Nat) (m : Mem)
    (hN : 0 < N) :
    ((GenerateInnerBags pRng cSamples aWeights N m).1 = none →
      (GenerateInnerBags pRng cSamples aWeights N m).2.2.live = m.live) ∧
    (∀ slots, (GenerateInnerBags pRng cSamples aWeights N m).1 = some slots →
      slots.length = N ∧ ∀ s ∈ slots, s.isSome = true) := by
  have hNne : ¬(N = 0) := Nat.pos_iff_ne_zero.mp hN
  have elive := EbmMalloc_live m
  rcases hseq : EbmMalloc m with ⟨ok, m1⟩
  rw [hseq] at elive
  cases ok with
  | false =>
    simp only [Bool.false_eq_true, if_false] at elive
    constructor
    · intro _
      simp only [GenerateInnerBags, hseq, Bool.not_false, if_true]
      exact elive
    · intro slots hs
      simp [GenerateInnerBags, hseq] at hs
  | true =>
    simp only [if_true] at elive
    have hmain := generateLoop_spec cSamples aWeights N hN N [] pRng m1 (by simp)
    simp only [List.map_nil, List.nil_append, List.length_nil] at hmain
    constructor
    · intro hnone
      simp only [GenerateInnerBags, hseq, Bool.not_true, Bool.false_eq_true, if_false,
        hNne] at hnone ⊢
      rw [hmain.2 hnone, elive]
      omega
    · intro slots hs
      simp only [GenerateInnerBags, hseq, Bool.not_true, Bool.false_eq_true, if_false,
        hNne] at hs
      exact hmain.1 slots hs

theorem generateInnerBags_all_or_nothing_witness :
    0 < 2 ∧ (GenerateInnerBags cRng0 1 none 2 ⟨[false], 5⟩).2.2.live = 5 :=
  ⟨by norm_num,
    (generateInnerBags_all_or_nothing cRng0 1 none 2 ⟨[false], 5⟩ (by norm_num)).1
      (by decide)⟩

/-- C9 counterexample: with sampleCount 2 and external weights
[0, 5] — one zero entry, the remaining entry strictly positive — the
weighted-bootstrap factory fails for the RNG state that draws index 0
both times (occurrence counts [2, 0] put all occurrences on the
zero-weight sample, so the aggregate weight is 0), refuting the claim
that construction succeeds for every RNG state. -/
theorem bootstrap_zero_weight_profile_can_fail :
    (GenerateSingleInnerBag cRng0 2
      (some [EFloat.val 0, EFloat.val 5]) ⟨[], 0⟩).1 = none := by
  have hc : (bootstrapCounts cRng0 2).1 = [2, 0] := by decide
  simp [GenerateSingleInnerBag, allocBagArrays_empty, hc, AddPositiveFloatsSafeBig,
    invalidTotal, EFloat.isnanE, EFloat.isinfE, EFloat.leZero, EFloat.add, EFloat.mul]

/-- C9 (amended): for external weights that are all finite and
nonnegative, contain a zero entry, and contain a strictly positive
entry, flat construction always succeeds with a finite strictly positive
weightTotal; weighted-bootstrap construction does so as well for every
RNG state under which at least one sample with a strictly positive
external weight is drawn at least once (without that condition the
bootstrap variant can fail, as the counterexample shows). -/
theorem zero_weight_entry_success_amended (pRng : RandomDeterministic)
    (cSamples : Nat) (ws : List EFloat) (liveF liveB : Nat)
    (hn : 1 ≤ cSamples) (hlen : ws.length = cSamples)
    (hall : ∀ w ∈ ws, ∃ q : ℚ, w = EFloat.val q ∧ 0 ≤ q)
    (hzero : EFloat.val 0 ∈ ws)
    (hpos : ∃ i, i < cSamples ∧ 0 < (bootstrapCounts pRng cSamples).1.getD i 0 ∧
      ∃ p : ℚ, ws.getD i EFloat.nan = EFloat.val p ∧ 0 < p) :
    (∃ bag, (GenerateFlatInnerBag cSamples (some ws) ⟨[], liveF⟩).1 = some bag ∧
      invalidTotal bag.m_weightTotal = false) ∧
    (∃ bag, (GenerateSingleInnerBag pRng cSamples (some ws) ⟨[], liveB⟩).1 = some bag ∧
      invalidTotal bag.m_weightTotal = false) := by
  obtain ⟨i, hiN, hcount, p, hwsi, hp⟩ := hpos
  have hiws : i < ws.length := by omega
  have hgetws : ws.getD i EFloat.nan = ws[i] := List.getD_eq_getElem ws EFloat.nan hiws
  rw [hgetws] at hwsi
  constructor
  · -- flat variant
    have htake : ws.take cSamples = ws := by
      rw [← hlen]; exact List.take_length ws
    obtain ⟨s, hseq, hspos⟩ := foldl_add_val_pos ws hall
      ⟨ws[i], List.getElem_mem hiws, p, hwsi, hp⟩
    have htotal : AddPositiveFloatsSafeBig cSamples ws = EFloat.val s := by
      unfold AddPositiveFloatsSafeBig
      rw [htake, hseq]
    have hinv : invalidTotal (AddPositiveFloatsSafeBig cSamples ws) = false := by
      rw [htotal]; exact invalidTotal_val_pos s hspos
    refine ⟨⟨List.replicate cSamples 1, ws.take cSamples,
      AddPositiveFloatsSafeBig cSamples ws⟩, ?_, by rw [htotal]; exact invalidTotal_val_pos s hspos⟩
    simp [GenerateFlatInnerBag, allocBagArrays_empty, hinv]
  · -- bootstrap variant
    have hlenC : (bootstrapCounts pRng cSamples).1.length = cSamples :=
      bootstrapCounts_length pRng cSamples
    have hlenZ : ((bootstrapCounts pRng cSamples).1.zip ws).length = cSamples := by
      rw [List.length_zip, hlenC, hlen]
      exact min_self cSamples
    have hlenE : (((bootstrapCounts pRng cSamples).1.zip ws).map
        (fun p => EFloat.mul (EFloat.val (p.1 : ℚ)) p.2)).length = cSamples := by
      rw [List.length_map, hlenZ]
    have heall : ∀ w ∈ ((bootstrapCounts pRng cSamples).1.zip ws).map
        (fun p => EFloat.mul (EFloat.val (p.1 : ℚ)) p.2),
        ∃ q : ℚ, w = EFloat.val q ∧ 0 ≤ q := by
      intro w hw
      simp only [List.mem_map] at hw
      obtain ⟨pr, hpr, rfl⟩ := hw
      obtain ⟨q, hq, hq0⟩ := hall pr.2 (List.mem_zip hpr).2
      refine ⟨(pr.1 : ℚ) * q, ?_, mul_nonneg (Nat.cast_nonneg pr.1) hq0⟩
      rw [hq]
      rfl
    have hiC : i < (bootstrapCounts pRng cSamples).1.length := by omega
    have hiZ : i < ((bootstrapCounts pRng cSamples).1.zip ws).length := by omega
    have hiE : i < (((bootstrapCounts pRng cSamples).1.zip ws).map
        (fun p => EFloat.mul (EFloat.val (p.1 : ℚ)) p.2)).length := by omega
    have hgetC : (bootstrapCounts pRng cSamples).1.getD i 0 =
        (bootstrapCounts pRng cSamples).1[i] :=
      List.getD_eq_getElem (bootstrapCounts pRng cSamples).1 0 hiC
    rw [hgetC] at hcount
    have heElem : (((bootstrapCounts pRng cSamples).1.zip ws).map
        (fun p => EFloat.mul (EFloat.val (p.1 : ℚ)) p.2))[i] =
        EFloat.val (((bootstrapCounts pRng cSamples).1[i] : ℚ) * p) := by
      rw [List.getElem_map, List.getElem_zip, hwsi]
      rfl
    have hcastpos : (0 : ℚ) < ((bootstrapCounts pRng cSamples).1[i] : ℚ) := by
      exact_mod_cast hcount
    obtain ⟨s, hseq, hspos⟩ := foldl_add_val_pos _ heall
      ⟨_, List.getElem_mem hiE, ((bootstrapCounts pRng cSamples).1[i] : ℚ) * p,
        heElem, mul_pos hcastpos hp⟩
    have htakeE : (((bootstrapCounts pRng cSamples).1.zip ws).map
        (fun p => EFloat.mul (EFloat.val (p.1 : ℚ)) p.2)).take cSamples =
        ((bootstrapCounts pRng cSamples).1.zip ws).map
          (fun p => EFloat.mul (EFloat.val (p.1 : ℚ)) p.2) :=
      List.take_of_length_le (le_of_eq hlenE)
    have htotal : AddPositiveFloatsSafeBig cSamples
        (((bootstrapCounts pRng cSamples).1.zip ws).map
          (fun p => EFloat.mul (EFloat.val (p.1 : ℚ)) p.2)) = EFloat.val s := by
      unfold AddPositiveFloatsSafeBig
      rw [htakeE, hseq]
    have hinv : invalidTotal (AddPositiveFloatsSafeBig cSamples
        (((bootstrapCounts pRng cSamples).1.zip ws).map
          (fun p => EFloat.mul (EFloat.val (p.1 : ℚ)) p.2))) = false := by
      rw [htotal]; exact invalidTotal_val_pos s hspos
    refine ⟨⟨(bootstrapCounts pRng cSamples).1,
      ((bootstrapCounts pRng cSamples).1.zip ws).map
        (fun p => EFloat.mul (EFloat.val (p.1 : ℚ)) p.2),
      AddPositiveFloatsSafeBig cSamples
        (((bootstrapCounts pRng cSamples).1.zip ws).map
          (fun p => EFloat.mul (EFloat.val (p.1 : ℚ)) p.2))⟩, ?_, hinv⟩
    simp [GenerateSingleInnerBag, allocBagArrays_empty, hinv]

theorem zero_weight_entry_success_amended_witness :
    1 ≤ 2 ∧ ([EFloat.val 0, EFloat.val 5] : List EFloat).length = 2 ∧
    EFloat.val 0 ∈ ([EFloat.val 0, EFloat.val 5] : List EFloat) ∧
    ((∃ bag, (GenerateFlatInnerBag 2 (some [EFloat.val 0, EFloat.val 5])
        ⟨[], 0⟩).1 = some bag ∧ invalidTotal bag.m_weightTotal = false) ∧
      (∃ bag, (GenerateSingleInnerBag cRng1 2 (some [EFloat.val 0, EFloat.val 5])
        ⟨[], 0⟩).1 = some bag ∧ invalidTotal bag.m_weightTotal = false)) :=
  ⟨by norm_num, by norm_num, by simp,
    zero_weight_entry_success_amended cRng1 2 [EFloat.val 0, EFloat.val 5] 0 0
      (by norm_num) (by norm_num)
      (by
        intro w hw
        simp only [List.mem_cons, List.not_mem_nil, or_false] at hw
        rcases hw with rfl | rfl
        · exact ⟨0, rfl, le_refl 0⟩
        · exact ⟨5, rfl, by norm_num⟩)
      (by simp)
      ⟨1, by norm_num, by decide, 5, rfl, by norm_num⟩⟩

end Interpret
